import Mathlib

/-!
Verification development for the `askar-bbs` crate (BBS+-style signatures:
generator derivation, Pedersen commitments with proofs of opening, and
multi-message signatures).  The crate's `lib.rs` declares the modules
`error`, `commitment`, `generators`, `signature` and `util`, whose bodies
are not present in the repository snapshot; every definition below is
therefore modelled from the specification, over a discrete-log model of the
pairing-friendly group: the prime-order scalar field is `ZMod q` for a
small model prime `q`, and group elements (in any of G1/G2/GT) are
represented by their discrete logarithms, also in `ZMod q`, so that scalar
multiplication is field multiplication, point addition is field addition,
and the pairing of two elements is the product of their logarithms.
Hash-to-curve and the Fiat-Shamir transcript hash are external
collaborators of the crate and are instantiated by small executable model
functions.
-/

namespace AskarBBS

/-- Order of the model scalar field.  The real crate works over the
BLS12-381 scalar field; the model uses a small prime so that every
definition is executable and witnesses can be checked by `decide`. -/
abbrev q : ℕ := 19

instance : Fact (Nat.Prime q) := ⟨by norm_num⟩

/-- Modelled from the spec: scalar-field elements (module `util` /
external field type). -/
abbrev Scalar : Type := ZMod q

/-- Modelled from the spec: a group element in discrete-log
representation (the point `x·P` is represented by `x`). -/
abbrev Point : Type := ZMod q

/-- Modelled from the spec: one field-element-valued attribute
(module `signature`, missing from the snapshot). -/
abbrev Message : Type := Scalar

/-- Modelled from the spec: the secret random field element hiding a
commitment (module `commitment`, missing from the snapshot). -/
abbrev Blinding : Type := Scalar

/-- Modelled from the spec: a single-use freshness value sized to the
scalar field (module `util`, missing from the snapshot). -/
abbrev Nonce : Type := Scalar

/-- Modelled from the spec: a commitment is a public group element
(module `commitment`, missing from the snapshot). -/
abbrev Commitment : Type := Point

/-- Modelled from the spec: the error taxonomy of module `error`
(missing from the snapshot): malformed arguments, non-canonical byte
encodings, programmer misuse, and exhausted generator derivation. -/
inductive Error : Type where
  | InvalidInput : Error
  | EncodingError : Error
  | Usage : Error
  | DerivationError : Error
deriving DecidableEq, Repr

instance {ε α : Type} [DecidableEq ε] [DecidableEq α] : DecidableEq (Except ε α) :=
  fun x y =>
    match x, y with
    | .ok a, .ok b =>
      if h : a = b then isTrue (by rw [h]) else isFalse (by intro hh; cases hh; exact h rfl)
    | .error a, .error b =>
      if h : a = b then isTrue (by rw [h]) else isFalse (by intro hh; cases hh; exact h rfl)
    | .ok _, .error _ => isFalse (by intro hh; cases hh)
    | .error _, .ok _ => isFalse (by intro hh; cases hh)

/-! ## Generators (module `generators`, missing from the snapshot)

Generator derivation is a domain-separated hash-to-curve over
`(domain_tag, index)`, retried with a bounded counter appended to the hash
input whenever the result is degenerate (the identity element, i.e. `0` in
discrete-log representation). -/

/-- Modelled from the spec: one hash-to-curve attempt on a derivation
input with a retry counter appended.  Hash-to-curve is an external
collaborator; the model maps input and counter injectively into the
field and never returns a fixed value twice in a row. -/
def hashToCurveAttempt (input retry : ℕ) : Point :=
  ((input + retry + 1 : ℕ) : ZMod q)

/-- Modelled from the spec: the bound on derivation retries. -/
def retryLimit : ℕ := 5

/-- Modelled from the spec: the bounded retry loop of generator
derivation; `r` is the current retry counter and the second argument the
remaining fuel.  Exhausting the bound is a fatal derivation error. -/
def derivePointLoop (input : ℕ) : ℕ → ℕ → Except Error Point
  | _, 0 => .error .DerivationError
  | r, Nat.succ fuel =>
    if hashToCurveAttempt input r = 0 then derivePointLoop input (r + 1) fuel
    else .ok (hashToCurveAttempt input r)

/-- Modelled from the spec: derive one generator point from a derivation
input, rejecting degenerate results with the bounded retry loop. -/
def derivePoint (input : ℕ) : Except Error Point :=
  derivePointLoop input 0 retryLimit

/-- Modelled from the spec: the derivation input of the blinding
generator for a given domain tag (domain-separated from the message
generators). -/
def blindingGeneratorInput (dom : ℕ) : ℕ :=
  Nat.pair dom 0

/-- Modelled from the spec: the derivation input of the `idx`-th message
generator for a given domain tag. -/
def messageGeneratorInput (dom idx : ℕ) : ℕ :=
  Nat.pair dom (idx + 1)

/-- Modelled from the spec: the on-demand generators variant
(`DynGeneratorsV1` of module `generators`): stateless, configured with a
domain tag and a message count, deriving each point on every access. -/
structure DynGeneratorsV1 : Type where
  dom : ℕ
  count : ℕ
deriving DecidableEq, Repr

/-- Modelled from the spec: on-demand `generator_at` — derives the
`i`-th message generator on every call; an index at or beyond the
configured count is a usage error. -/
def DynGeneratorsV1.generator_at (g : DynGeneratorsV1) (i : ℕ) : Except Error Point :=
  if i < g.count then derivePoint (messageGeneratorInput g.dom i)
  else .error .Usage

/-- Modelled from the spec: on-demand `blinding_generator`. -/
def DynGeneratorsV1.blinding_generator (g : DynGeneratorsV1) : Except Error Point :=
  derivePoint (blindingGeneratorInput g.dom)

/-- Modelled from the spec: one-time population of the precomputed
generators cache — derives the first `n` message generators in order. -/
def buildPoints (dom : ℕ) : ℕ → Except Error (List Point)
  | 0 => .ok []
  | Nat.succ n => do
    let ps ← buildPoints dom n
    let p ← derivePoint (messageGeneratorInput dom n)
    .ok (ps ++ [p])

/-- Modelled from the spec: the precomputed generators variant
(`VecGenerators` of module `generators`): caches the message generators
and the blinding generator at construction. -/
structure VecGenerators : Type where
  dom : ℕ
  points : List Point
  h0 : Point
deriving DecidableEq, Repr

/-- Modelled from the spec: construct a `VecGenerators` cache over a
domain tag with `n` message generators. -/
def VecGenerators.new (dom n : ℕ) : Except Error VecGenerators := do
  let ps ← buildPoints dom n
  let b ← derivePoint (blindingGeneratorInput dom)
  .ok ⟨dom, ps, b⟩

/-- Modelled from the spec: the configured count of a precomputed
generators cache. -/
def VecGenerators.count (g : VecGenerators) : ℕ :=
  g.points.length

/-- Modelled from the spec: precomputed `generator_at` — reads the
cached point; an index at or beyond the configured count is a usage
error. -/
def VecGenerators.generator_at (g : VecGenerators) (i : ℕ) : Except Error Point :=
  match g.points[i]? with
  | some p => .ok p
  | none => .error .Usage

/-! ## Commitments and proofs of opening (module `commitment`, missing
from the snapshot) -/

/-- Modelled from the spec: the ordered mapping from message index to
message value describing what a commitment hides (the associated blinding
is passed alongside). -/
abbrev CommittedMessages : Type := List (ℕ × Message)

/-- Modelled from the spec: executable check that a list of indices is
strictly increasing. -/
def sortedUniqueB : List ℕ → Bool
  | [] => true
  | [_] => true
  | a :: b :: t => decide (a < b) && sortedUniqueB (b :: t)

/-- Modelled from the spec: the committed indices must be sorted and
unique. -/
def indicesSortedUnique (cm : CommittedMessages) : Prop :=
  List.Chain' (· < ·) (cm.map Prod.fst)

instance (cm : CommittedMessages) : Decidable (indicesSortedUnique cm) :=
  decidable_of_iff (sortedUniqueB (cm.map Prod.fst) = true) (by
    suffices h : ∀ l : List ℕ, sortedUniqueB l = true ↔ List.Chain' (· < ·) l from
      h (cm.map Prod.fst)
    intro l
    induction l with
    | nil => simp [sortedUniqueB]
    | cons a t ih =>
      cases t with
      | nil => simp [sortedUniqueB]
      | cons b t' =>
        rw [List.chain'_cons, ← ih]
        simp [sortedUniqueB])

/-- Modelled from the spec: the committed indices must lie within the
configured generator range. -/
def indicesInRange (cm : CommittedMessages) (n : ℕ) : Prop :=
  ∀ p ∈ cm, p.1 < n

instance (cm : CommittedMessages) (n : ℕ) : Decidable (indicesInRange cm n) :=
  inferInstanceAs (Decidable (∀ p ∈ cm, p.1 < n))

/-- Modelled from the spec: the sum of index-weighted message terms
`Σ message_i · generator_i` over a list of (index, message) pairs. -/
def pairTermSum (hs : List Point) (l : List (ℕ × Message)) : Point :=
  (l.map (fun p => p.2 * hs.getD p.1 0)).sum

/-- Modelled from the spec: `create_commitment` — the multi-scalar
multiplication `blinding · blinding-generator + Σ message_i ·
generator_i`, computed as a fold; duplicate or out-of-range indices are
usage errors. -/
def create_commitment (h0 : Point) (hs : List Point) (cm : CommittedMessages)
    (b : Blinding) : Except Error Commitment :=
  if ¬ indicesSortedUnique cm then .error .Usage
  else if ¬ indicesInRange cm hs.length then .error .Usage
  else .ok (cm.foldl (fun acc p => acc + p.2 * hs.getD p.1 0) (b * h0))

/-- Modelled from the spec: a non-interactive proof of knowledge of a
commitment's opening — the Fiat-Shamir challenge plus one response per
hidden exponent (the blinding response first, then one response per
committed message). -/
structure CommitmentProof : Type where
  challenge : Scalar
  responses : List Scalar
deriving DecidableEq, Repr

/-- Modelled from the spec: the Fiat-Shamir transcript hash is an
external collaborator; the model uses an executable rolling hash over the
transcript scalars. -/
def transcriptHash (l : List Scalar) : Scalar :=
  l.foldl (fun a x => 3 * a + x + 1) 0

/-- Modelled from the spec: `challenge = Hash(generators ∥ commitment ∥
random-commitment ∥ nonce)`. -/
def challengeHash (h0 : Point) (hs : List Point) (commitment : Commitment)
    (randomCommitment : Point) (nonce : Nonce) : Scalar :=
  transcriptHash (h0 :: hs ++ [commitment, randomCommitment, nonce])

/-- Modelled from the spec: `prove_commitment` — a Schnorr-style proof of
knowledge of all `k + 1` exponents.  The random field elements sampled by
the prover are explicit inputs (`randB` for the blinding, one element of
`rands` per committed message); the challenge is derived from the
transcript and each response is `random + challenge · secret`. -/
def prove_commitment (h0 : Point) (hs : List Point) (commitment : Commitment)
    (cm : CommittedMessages) (b : Blinding) (nonce : Nonce)
    (randB : Scalar) (rands : List Scalar) : Except Error CommitmentProof :=
  if ¬ indicesSortedUnique cm then .error .Usage
  else if ¬ indicesInRange cm hs.length then .error .Usage
  else if rands.length ≠ cm.length then .error .InvalidInput
  else
    let randomCommitment :=
      randB * h0 + (List.zipWith (fun r p => r * hs.getD p.1 0) rands cm).sum
    let c := challengeHash h0 hs commitment randomCommitment nonce
    .ok ⟨c, (randB + c * b) :: List.zipWith (fun r p => r + c * p.2) rands cm⟩

/-- Modelled from the spec: `verify_commitment_proof` — recomputes the
random commitment from the responses and the challenge, recomputes the
challenge from the transcript, and returns the boolean comparison; a
response-count mismatch against the committed index set is a structural
error, never conflated with the boolean outcome. -/
def verify_commitment_proof (h0 : Point) (hs : List Point) (commitment : Commitment)
    (proof : CommitmentProof) (idxs : List ℕ) (nonce : Nonce) : Except Error Bool :=
  match proof.responses with
  | [] => .error .InvalidInput
  | rb :: rest =>
    if rest.length ≠ idxs.length then .error .InvalidInput
    else
      let S := rb * h0 + (List.zipWith (fun r i => r * hs.getD i 0) rest idxs).sum
      let randomCommitment := S - proof.challenge * commitment
      .ok (decide
        (proof.challenge = challengeHash h0 hs commitment randomCommitment nonce))

/-! ## Signatures (module `signature`, missing from the snapshot) -/

/-- Modelled from the spec: a signature is an immutable tuple of
group/scalar elements `(A, e, s)` satisfying the pairing verification
equation over a message vector. -/
structure Signature : Type where
  A : Point
  e : Scalar
  s : Scalar
deriving DecidableEq, Repr

/-- Modelled from the spec: the positional sum `Σ generator_i ·
message_i` over an ordered message vector (slot `i` pairs with
`generator_at(i)`). -/
def weightedSum (hs : List Point) (msgs : List Message) : Point :=
  (List.zipWith (fun m h => m * h) msgs hs).sum

/-- Modelled from the spec: `sign` — constructs the signature tuple so
that the verification equation holds over `Σ generator_i · message_i`.
The scalars `e` and `s` drawn by the issuer are explicit inputs; in
discrete-log representation `A = (P1 + s·h0 + Σ m_i·h_i) / (sk + e)`
with the base point `P1` represented by `1`.  A message count different
from the generator count is a structural error. -/
def sign (sk e s : Scalar) (h0 : Point) (hs : List Point)
    (msgs : List Message) : Except Error Signature :=
  if msgs.length ≠ hs.length then .error .InvalidInput
  else if sk + e = 0 then .error .InvalidInput
  else .ok ⟨(1 + s * h0 + weightedSum hs msgs) * (sk + e)⁻¹, e, s⟩

/-- Modelled from the spec: `verify` — recomputes the expected pairing
relation from the supplied message vector and returns the boolean
comparison (`e(A, pk + e·P2) = e(b, P2)` becomes `A·(pk + e) = 1 + s·h0 +
Σ m_i·h_i` in discrete-log representation, with the public key
represented by the secret scalar `sk` since `pk = sk·P2`); a
length-mismatched message vector is a structural error. -/
def verify (pk : Scalar) (h0 : Point) (hs : List Point) (sig : Signature)
    (msgs : List Message) : Except Error Bool :=
  if msgs.length ≠ hs.length then .error .InvalidInput
  else .ok (decide (sig.A * (pk + sig.e) = 1 + sig.s * h0 + weightedSum hs msgs))

/-- Modelled from the spec: blind issuance — the issuer incorporates its
own cleartext messages (as (index, message) pairs) together with the
holder's commitment, which contributes the hidden terms in
already-masked form. -/
def sign_blind (sk e s : Scalar) (h0 : Point) (hs : List Point)
    (issuer : List (ℕ × Message)) (commitment : Commitment) : Except Error Signature :=
  if sk + e = 0 then .error .InvalidInput
  else .ok ⟨(1 + s * h0 + commitment + pairTermSum hs issuer) * (sk + e)⁻¹, e, s⟩

/-- Modelled from the spec: the holder folds its blinding into the `s`
component of a blindly issued signature, yielding the signature over the
full message vector. -/
def Signature.unblind (sig : Signature) (b : Blinding) : Signature :=
  ⟨sig.A, sig.e, sig.s + b⟩

/-- Reordering operation on a message vector: exchange the entries at
positions `i` and `j`. -/
def listSwap (msgs : List Message) (i j : ℕ) : List Message :=
  (msgs.set i (msgs.getD j 0)).set j (msgs.getD i 0)

/-! ## Byte encodings (module `util` and the per-type codecs, missing
from the snapshot)

Bytes are modelled as natural numbers; an encoded scalar is canonical
exactly when its value is below the field order. -/

/-- Modelled from the spec: fixed-width canonical encoding of one
field/group element. -/
def encodeScalar (x : Scalar) : List ℕ :=
  [x.val]

/-- Modelled from the spec: decoding of one field/group element; a wrong
length or a non-canonical value fails with an encoding error. -/
def decodeScalar (l : List ℕ) : Except Error Scalar :=
  match l with
  | [b] => if b < q then .ok ((b : ℕ) : ZMod q) else .error .EncodingError
  | _ => .error .EncodingError

/-- Modelled from the spec: commitment encoding (a commitment is one
group element). -/
def encodeCommitment (c : Commitment) : List ℕ :=
  encodeScalar c

/-- Modelled from the spec: commitment decoding. -/
def decodeCommitment (l : List ℕ) : Except Error Commitment :=
  decodeScalar l

/-- Modelled from the spec: nonce encoding. -/
def encodeNonce (n : Nonce) : List ℕ :=
  encodeScalar n

/-- Modelled from the spec: `Nonce::from_bytes` — deterministic
reconstruction, failing with an encoding error on invalid length or a
non-canonical field representation. -/
def Nonce.from_bytes (l : List ℕ) : Except Error Nonce :=
  decodeScalar l

/-- Modelled from the spec: signature encoding — the `(A, e, s)` tuple in
order. -/
def encodeSignature (sig : Signature) : List ℕ :=
  [sig.A.val, sig.e.val, sig.s.val]

/-- Modelled from the spec: signature decoding; a wrong length or any
non-canonical element fails with an encoding error. -/
def decodeSignature (l : List ℕ) : Except Error Signature :=
  match l with
  | [a, e, s] =>
    if a < q ∧ e < q ∧ s < q then
      .ok ⟨((a : ℕ) : ZMod q), ((e : ℕ) : ZMod q), ((s : ℕ) : ZMod q)⟩
    else .error .EncodingError
  | _ => .error .EncodingError

/-- Modelled from the spec: commitment-proof encoding — the challenge
followed by the responses. -/
def encodeProof (p : CommitmentProof) : List ℕ :=
  p.challenge.val :: p.responses.map ZMod.val

/-- Modelled from the spec: commitment-proof decoding against an expected
response count; a wrong element count or any non-canonical element fails
with an encoding error. -/
def decodeProof (k : ℕ) (l : List ℕ) : Except Error CommitmentProof :=
  match l with
  | [] => .error .EncodingError
  | c :: rest =>
    if c < q ∧ rest.length = k ∧ ∀ b ∈ rest, b < q then
      .ok ⟨((c : ℕ) : ZMod q), rest.map (fun b => ((b : ℕ) : ZMod q))⟩
    else .error .EncodingError

/-- Modelled from the spec: verification from an encoded signature —
decoding feeds the structured verifier, so undecodable bytes surface as
an encoding error. -/
def verify_signature_bytes (pk : Scalar) (h0 : Point) (hs : List Point)
    (l : List ℕ) (msgs : List Message) : Except Error Bool := do
  let sig ← decodeSignature l
  verify pk h0 hs sig msgs

/-! ## Helper theorems -/

theorem derivePoint_eq (input : ℕ) :
    derivePoint input =
      (if hashToCurveAttempt input 0 = 0 then .ok (hashToCurveAttempt input 1)
       else .ok (hashToCurveAttempt input 0)) := by
  unfold derivePoint retryLimit
  by_cases h0 : hashToCurveAttempt input 0 = 0
  · have h1 : hashToCurveAttempt input 1 ≠ 0 := by
      intro h1
      have : hashToCurveAttempt input 1 = hashToCurveAttempt input 0 + 1 := by
        unfold hashToCurveAttempt
        push_cast
        ring
      rw [this, h0, zero_add] at h1
      exact one_ne_zero h1
    simp [derivePointLoop, h0, h1]
  · simp [derivePointLoop, h0]

/-- Generator derivation always succeeds in the model, and the derived
point is never the identity. -/
theorem derivePoint_ok (input : ℕ) :
    ∃ p : Point, derivePoint input = .ok p ∧ p ≠ 0 := by
  rw [derivePoint_eq]
  by_cases h0 : hashToCurveAttempt input 0 = 0
  · refine ⟨hashToCurveAttempt input 1, by simp [h0], ?_⟩
    intro h1
    have he : hashToCurveAttempt input 1 = hashToCurveAttempt input 0 + 1 := by
      unfold hashToCurveAttempt
      push_cast
      ring
    rw [he, h0, zero_add] at h1
    exact one_ne_zero h1
  · exact ⟨hashToCurveAttempt input 0, by simp [h0], h0⟩

theorem buildPoints_length {dom n : ℕ} {ps : List Point}
    (h : buildPoints dom n = .ok ps) : ps.length = n := by
  induction n generalizing ps with
  | zero =>
    simp only [buildPoints] at h
    cases h
    rfl
  | succ n ih =>
    simp only [buildPoints, bind, Except.bind] at h
    cases hb : buildPoints dom n with
    | error e => rw [hb] at h; cases h
    | ok ps' =>
      rw [hb] at h
      cases hd : derivePoint (messageGeneratorInput dom n) with
      | error e => rw [hd] at h; cases h
      | ok p =>
        rw [hd] at h
        cases h
        simp [ih hb]

theorem buildPoints_getElem {dom n : ℕ} {ps : List Point}
    (h : buildPoints dom n = .ok ps) {i : ℕ} (hi : i < n) :
    ∃ p : Point, ps[i]? = some p ∧ derivePoint (messageGeneratorInput dom i) = .ok p := by
  induction n generalizing ps with
  | zero => exact absurd hi (Nat.not_lt_zero i)
  | succ n ih =>
    simp only [buildPoints, bind, Except.bind] at h
    cases hb : buildPoints dom n with
    | error e => rw [hb] at h; cases h
    | ok ps' =>
      rw [hb] at h
      cases hd : derivePoint (messageGeneratorInput dom n) with
      | error e => rw [hd] at h; cases h
      | ok p =>
        rw [hd] at h
        cases h
        rcases Nat.lt_succ_iff_lt_or_eq.mp hi with hlt | heq
        · obtain ⟨p', hp', hd'⟩ := ih hb hlt
          refine ⟨p', ?_, hd'⟩
          rw [List.getElem?_append_left, hp']
          rw [buildPoints_length hb]
          exact hlt
        · subst heq
          refine ⟨p, ?_, hd⟩
          have hl : ps'.length = i := buildPoints_length hb
          rw [← hl]
          simp [List.getElem?_append_right]

theorem buildPoints_ok (dom n : ℕ) :
    ∃ ps : List Point, buildPoints dom n = .ok ps := by
  induction n with
  | zero => exact ⟨[], rfl⟩
  | succ n ih =>
    obtain ⟨ps, hps⟩ := ih
    obtain ⟨p, hp, -⟩ := derivePoint_ok (messageGeneratorInput dom n)
    exact ⟨ps ++ [p], by simp [buildPoints, bind, Except.bind, hps, hp]⟩

theorem buildPoints_nonzero {dom n : ℕ} {ps : List Point}
    (h : buildPoints dom n = .ok ps) {x : Point} (hx : x ∈ ps) : x ≠ 0 := by
  induction n generalizing ps with
  | zero =>
    simp only [buildPoints] at h
    cases h
    cases hx
  | succ n ih =>
    simp only [buildPoints, bind, Except.bind] at h
    cases hb : buildPoints dom n with
    | error e => rw [hb] at h; cases h
    | ok ps' =>
      rw [hb] at h
      cases hd : derivePoint (messageGeneratorInput dom n) with
      | error e => rw [hd] at h; cases h
      | ok p =>
        rw [hd] at h
        cases h
        rcases List.mem_append.mp hx with hmem | hmem
        · exact ih hb hmem
        · obtain ⟨p', hp', hne⟩ := derivePoint_ok (messageGeneratorInput dom n)
          rw [hd] at hp'
          cases hp'
          rw [List.mem_singleton.mp hmem]
          exact hne

theorem VecGenerators_new_ok {dom n : ℕ} {g : VecGenerators}
    (h : VecGenerators.new dom n = .ok g) :
    buildPoints dom n = .ok g.points ∧
      derivePoint (blindingGeneratorInput dom) = .ok g.h0 ∧ g.dom = dom := by
  simp only [VecGenerators.new, bind, Except.bind] at h
  cases hb : buildPoints dom n with
  | error e => rw [hb] at h; cases h
  | ok ps =>
    rw [hb] at h
    cases hd : derivePoint (blindingGeneratorInput dom) with
    | error e => rw [hd] at h; cases h
    | ok p =>
      rw [hd] at h
      cases h
      exact ⟨rfl, rfl, rfl⟩

theorem VecGenerators_new_length {dom n : ℕ} {g : VecGenerators}
    (h : VecGenerators.new dom n = .ok g) : g.points.length = n :=
  buildPoints_length (VecGenerators_new_ok h).1

/-- Claim C2: for every domain, size `n` and index `i < n`, the point
produced on demand by `DynGeneratorsV1` equals the `i`-th cached point of
a `VecGenerators` constructed with size `n` over the same domain. -/
theorem claim_C2 {dom n : ℕ} {g : VecGenerators}
    (hg : VecGenerators.new dom n = .ok g) {i : ℕ} (hi : i < n) :
    ∃ p : Point, g.generator_at i = .ok p ∧
      (DynGeneratorsV1.mk dom n).generator_at i = .ok p := by
  obtain ⟨hb, -, -⟩ := VecGenerators_new_ok hg
  obtain ⟨p, hp, hd⟩ := buildPoints_getElem hb hi
  refine ⟨p, ?_, ?_⟩
  · simp [VecGenerators.generator_at, hp]
  · simp [DynGeneratorsV1.generator_at, hi, hd]

/-- Witness for claim C2 at domain 0, size 3, index 1. -/
theorem claim_C2_witness :
    VecGenerators.new 0 3 = .ok ⟨0, [2, 5, 10], 1⟩ ∧ 1 < 3 ∧
      ∃ p : Point, VecGenerators.generator_at ⟨0, [2, 5, 10], 1⟩ 1 = .ok p ∧
        (DynGeneratorsV1.mk 0 3).generator_at 1 = .ok p :=
  ⟨by decide, by decide, claim_C2 (by decide) (by decide)⟩

/-- Claim C9: for a generators instance configured with count `n`, every
index strictly below `n` (so up to and including the maximum usable index
`n - 1`) succeeds, and index `n` — one past the maximum usable index —
fails with a usage error; this holds for both variants. -/
theorem claim_C9 (dom n : ℕ) :
    (∀ i, i < n → ∃ p : Point, (DynGeneratorsV1.mk dom n).generator_at i = .ok p) ∧
      (DynGeneratorsV1.mk dom n).generator_at n = .error .Usage ∧
      ∀ g : VecGenerators, VecGenerators.new dom n = .ok g →
        (∀ i, i < n → ∃ p : Point, g.generator_at i = .ok p) ∧
          g.generator_at n = .error .Usage := by
  refine ⟨?_, ?_, ?_⟩
  · intro i hi
    obtain ⟨p, hp, -⟩ := derivePoint_ok (messageGeneratorInput dom i)
    exact ⟨p, by simp [DynGeneratorsV1.generator_at, hi, hp]⟩
  · simp [DynGeneratorsV1.generator_at]
  · intro g hg
    obtain ⟨hb, -, -⟩ := VecGenerators_new_ok hg
    constructor
    · intro i hi
      obtain ⟨p, hp, -⟩ := buildPoints_getElem hb hi
      exact ⟨p, by simp [VecGenerators.generator_at, hp]⟩
    · have hn : g.points.length = n := buildPoints_length hb
      have : g.points[n]? = none := by
        rw [List.getElem?_eq_none]
        exact hn.le
      simp [VecGenerators.generator_at, this]

/-- Witness for claim C9 at domain 0, count 3: index 2 succeeds, index 3
fails with a usage error. -/
theorem claim_C9_witness :
    (∃ p : Point, (DynGeneratorsV1.mk 0 3).generator_at 2 = .ok p) ∧
      (DynGeneratorsV1.mk 0 3).generator_at 3 = .error .Usage :=
  ⟨(claim_C9 0 3).1 2 (by decide), (claim_C9 0 3).2.1⟩

theorem pairTermSum_cons (hs : List Point) (p : ℕ × Message) (t : CommittedMessages) :
    pairTermSum hs (p :: t) = p.2 * hs.getD p.1 0 + pairTermSum hs t := by
  simp [pairTermSum]

theorem foldl_pairTermSum (hs : List Point) (cm : CommittedMessages) :
    ∀ init : Point,
      cm.foldl (fun acc p => acc + p.2 * hs.getD p.1 0) init = init + pairTermSum hs cm := by
  induction cm with
  | nil => intro init; simp [pairTermSum]
  | cons p t ih =>
    intro init
    simp only [List.foldl_cons]
    rw [ih, pairTermSum_cons]
    ring

theorem create_commitment_ok (h0 : Point) (hs : List Point) (cm : CommittedMessages)
    (b : Blinding) (h1 : indicesSortedUnique cm) (h2 : indicesInRange cm hs.length) :
    create_commitment h0 hs cm b = .ok (b * h0 + pairTermSum hs cm) := by
  unfold create_commitment
  rw [if_neg (not_not_intro h1), if_neg (not_not_intro h2), foldl_pairTermSum]

theorem sortedUnique_nodup {cm : CommittedMessages} (h : indicesSortedUnique cm) :
    (cm.map Prod.fst).Nodup :=
  (List.chain'_iff_pairwise.mp h).imp ne_of_lt

/-- Claim C7 (theorem): for sorted-unique, in-range committed messages,
`create_commitment` returns exactly `blinding · blinding-generator +
Σ message_i · generator_i`, and two calls on identical inputs always
return the identical commitment value. -/
theorem claim_C7 :
    (∀ (h0 : Point) (hs : List Point) (cm : CommittedMessages) (b : Blinding),
        indicesSortedUnique cm → indicesInRange cm hs.length →
        create_commitment h0 hs cm b = .ok (b * h0 + pairTermSum hs cm)) ∧
      ∀ (h0 : Point) (hs : List Point) (cm : CommittedMessages) (b : Blinding),
        create_commitment h0 hs cm b = create_commitment h0 hs cm b :=
  ⟨fun h0 hs cm b h1 h2 => create_commitment_ok h0 hs cm b h1 h2,
   fun _ _ _ _ => rfl⟩

/-- Witness for claim C7 at the spec's concrete scenario: messages 5 and
11 at indices 0 and 2, blinding 42. -/
theorem claim_C7_witness :
    indicesSortedUnique [((0 : ℕ), (5 : Message)), (2, 11)] ∧
      indicesInRange [((0 : ℕ), (5 : Message)), (2, 11)] ([2, 3, 4] : List Point).length ∧
      create_commitment 7 [2, 3, 4] [((0 : ℕ), (5 : Message)), (2, 11)] 42 =
        .ok (42 * 7 + pairTermSum [2, 3, 4] [((0 : ℕ), (5 : Message)), (2, 11)]) :=
  ⟨by decide, by decide,
   claim_C7.1 7 [2, 3, 4] [((0 : ℕ), (5 : Message)), (2, 11)] 42 (by decide) (by decide)⟩

/-- Claim C10: any committed-messages value with a duplicated index makes
both `create_commitment` and `prove_commitment` fail with a usage
error. -/
theorem claim_C10 (h0 : Point) (hs : List Point) (cm : CommittedMessages)
    (b : Blinding) (commitment : Commitment) (nonce : Nonce)
    (randB : Scalar) (rands : List Scalar)
    (hdup : ¬ (cm.map Prod.fst).Nodup) :
    create_commitment h0 hs cm b = .error .Usage ∧
      prove_commitment h0 hs commitment cm b nonce randB rands = .error .Usage := by
  have hns : ¬ indicesSortedUnique cm := fun h => hdup (sortedUnique_nodup h)
  constructor
  · unfold create_commitment
    rw [if_pos hns]
  · unfold prove_commitment
    rw [if_pos hns]

/-- Witness for claim C10: index 0 appears twice. -/
theorem claim_C10_witness :
    ¬ (([((0 : ℕ), (1 : Message)), (0, 2)] : CommittedMessages).map Prod.fst).Nodup ∧
      create_commitment 1 [2, 3] [((0 : ℕ), (1 : Message)), (0, 2)] 5 = .error .Usage ∧
      prove_commitment 1 [2, 3] 9 [((0 : ℕ), (1 : Message)), (0, 2)] 5 4 3 [6, 7] =
        .error .Usage :=
  ⟨by decide, claim_C10 1 [2, 3] [((0 : ℕ), (1 : Message)), (0, 2)] 5 9 4 3 [6, 7] (by decide)⟩

theorem decodeScalar_encodeScalar (x : Scalar) :
    decodeScalar (encodeScalar x) = .ok x := by
  simp only [encodeScalar, decodeScalar]
  rw [if_pos (ZMod.val_lt x), ZMod.natCast_rightInverse x]

theorem map_val_cast (l : List Scalar) :
    (l.map ZMod.val).map (fun b => ((b : ℕ) : ZMod q)) = l := by
  induction l with
  | nil => rfl
  | cons x t ih => simp [ih, ZMod.natCast_rightInverse x]

/-- Claim C4: for each encodable type — commitment, commitment proof,
signature and nonce — decoding an encoded valid value returns the value
itself. -/
theorem claim_C4 :
    (∀ c : Commitment, decodeCommitment (encodeCommitment c) = .ok c) ∧
      (∀ p : CommitmentProof, decodeProof p.responses.length (encodeProof p) = .ok p) ∧
      (∀ sig : Signature, decodeSignature (encodeSignature sig) = .ok sig) ∧
      ∀ x : Nonce, Nonce.from_bytes (encodeNonce x) = .ok x := by
  refine ⟨fun c => decodeScalar_encodeScalar c, fun p => ?_, fun sig => ?_, fun x =>
    decodeScalar_encodeScalar x⟩
  · simp only [encodeProof, decodeProof]
    rw [if_pos]
    · rw [ZMod.natCast_rightInverse p.challenge, map_val_cast]
    · refine ⟨ZMod.val_lt p.challenge, by simp, ?_⟩
      intro b hb
      obtain ⟨y, -, hy⟩ := List.mem_map.mp hb
      rw [← hy]
      exact ZMod.val_lt y
  · simp only [encodeSignature, decodeSignature]
    rw [if_pos ⟨ZMod.val_lt sig.A, ZMod.val_lt sig.e, ZMod.val_lt sig.s⟩]
    rw [ZMod.natCast_rightInverse sig.A, ZMod.natCast_rightInverse sig.e,
      ZMod.natCast_rightInverse sig.s]

theorem decodeScalar_badLength {l : List ℕ} (h : l.length ≠ 1) :
    decodeScalar l = .error .EncodingError := by
  match l with
  | [] => rfl
  | [b] => exact absurd rfl h
  | a :: b :: t => rfl

theorem decodeScalar_nonCanonical {b : ℕ} (h : q ≤ b) :
    decodeScalar [b] = .error .EncodingError := by
  simp only [decodeScalar]
  rw [if_neg (Nat.not_lt.mpr h)]

/-- Claim C8: decoding a structurally invalid byte string — wrong length
or a non-canonical field element — fails with an encoding error for every
encodable type, and `Nonce::from_bytes` is a deterministic function of
the bytes. -/
theorem claim_C8 :
    (∀ l : List ℕ, l.length ≠ 1 → Nonce.from_bytes l = .error .EncodingError) ∧
      (∀ b : ℕ, q ≤ b → Nonce.from_bytes [b] = .error .EncodingError) ∧
      (∀ (l : List ℕ) (x y : Nonce),
        Nonce.from_bytes l = .ok x → Nonce.from_bytes l = .ok y → x = y) ∧
      (∀ l : List ℕ, l.length ≠ 1 → decodeCommitment l = .error .EncodingError) ∧
      (∀ b : ℕ, q ≤ b → decodeCommitment [b] = .error .EncodingError) ∧
      (∀ l : List ℕ, l.length ≠ 3 → decodeSignature l = .error .EncodingError) ∧
      (∀ a e s : ℕ, q ≤ a ∨ q ≤ e ∨ q ≤ s →
        decodeSignature [a, e, s] = .error .EncodingError) ∧
      (∀ (k : ℕ) (l : List ℕ), l.length ≠ k + 1 →
        decodeProof k l = .error .EncodingError) ∧
      ∀ (k c : ℕ) (rest : List ℕ), q ≤ c ∨ (∃ b ∈ rest, q ≤ b) →
        decodeProof k (c :: rest) = .error .EncodingError := by
  refine ⟨fun l h => decodeScalar_badLength h, fun b h => decodeScalar_nonCanonical h,
    fun l x y hx hy => ?_, fun l h => decodeScalar_badLength h,
    fun b h => decodeScalar_nonCanonical h, fun l h => ?_, fun a e s h => ?_,
    fun k l h => ?_, fun k c rest h => ?_⟩
  · rw [hx] at hy
    exact Except.ok.inj hy
  · match l with
    | [] => rfl
    | [_] => rfl
    | [_, _] => rfl
    | [a, b, c] => exact absurd rfl h
    | a :: b :: c :: d :: t => rfl
  · simp only [decodeSignature]
    rw [if_neg]
    intro hcon
    rcases h with h | h | h
    · exact absurd hcon.1 (Nat.not_lt.mpr h)
    · exact absurd hcon.2.1 (Nat.not_lt.mpr h)
    · exact absurd hcon.2.2 (Nat.not_lt.mpr h)
  · match l with
    | [] => rfl
    | c :: rest =>
      simp only [decodeProof]
      rw [if_neg]
      intro hcon
      apply h
      simp [hcon.2.1]
  · simp only [decodeProof]
    rw [if_neg]
    intro hcon
    rcases h with h | h
    · exact absurd hcon.1 (Nat.not_lt.mpr h)
    · obtain ⟨b, hb, hbq⟩ := h
      exact absurd (hcon.2.2 b hb) (Nat.not_lt.mpr hbq)

/-- Witness for claim C8: the empty byte string and the out-of-range
byte 25 — in every position, including the middle and last signature
slots and a right-length proof encoding — are rejected with an encoding
error at each decoder. -/
theorem claim_C8_witness :
    Nonce.from_bytes [] = .error .EncodingError ∧
      Nonce.from_bytes [25] = .error .EncodingError ∧
      decodeCommitment [1, 2] = .error .EncodingError ∧
      decodeSignature [1, 2] = .error .EncodingError ∧
      decodeSignature [25, 0, 0] = .error .EncodingError ∧
      decodeSignature [1, 25, 2] = .error .EncodingError ∧
      decodeSignature [1, 2, 25] = .error .EncodingError ∧
      decodeProof 2 [1, 2] = .error .EncodingError ∧
      decodeProof 1 [1, 25] = .error .EncodingError :=
  ⟨claim_C8.1 [] (by decide), claim_C8.2.1 25 (by decide),
    claim_C8.2.2.2.1 [1, 2] (by decide), claim_C8.2.2.2.2.2.1 [1, 2] (by decide),
    claim_C8.2.2.2.2.2.2.1 25 0 0 (by decide),
    claim_C8.2.2.2.2.2.2.1 1 25 2 (by decide),
    claim_C8.2.2.2.2.2.2.1 1 2 25 (by decide),
    claim_C8.2.2.2.2.2.2.2.1 2 [1, 2] (by decide),
    claim_C8.2.2.2.2.2.2.2.2 1 1 [25] (by decide)⟩

theorem verify_eq_ok {pk : Scalar} {h0 : Point} {hs : List Point} {sig : Signature}
    {msgs : List Message} (hlen : msgs.length = hs.length) :
    verify pk h0 hs sig msgs =
      .ok (decide (sig.A * (pk + sig.e) = 1 + sig.s * h0 + weightedSum hs msgs)) := by
  unfold verify
  rw [if_neg (not_not_intro hlen)]

/-- Claim C6: on well-formed input, signature verification and
commitment-proof verification always return an `ok` boolean — a
cryptographically invalid value yields `ok false`, never an error — while
structurally malformed input (wrong vector length, wrong response count,
undecodable bytes) yields an error; the two outcomes are disjoint by
construction. -/
theorem claim_C6 :
    (∀ (pk : Scalar) (h0 : Point) (hs : List Point) (sig : Signature)
        (msgs : List Message), msgs.length = hs.length →
        ∃ b : Bool, verify pk h0 hs sig msgs = .ok b) ∧
      (∀ (pk : Scalar) (h0 : Point) (hs : List Point) (sig : Signature)
        (msgs : List Message), msgs.length = hs.length →
        sig.A * (pk + sig.e) ≠ 1 + sig.s * h0 + weightedSum hs msgs →
        verify pk h0 hs sig msgs = .ok false) ∧
      (∀ (pk : Scalar) (h0 : Point) (hs : List Point) (sig : Signature)
        (msgs : List Message), msgs.length ≠ hs.length →
        verify pk h0 hs sig msgs = .error .InvalidInput) ∧
      (∀ (h0 : Point) (hs : List Point) (commitment : Commitment)
        (proof : CommitmentProof) (idxs : List ℕ) (nonce : Nonce),
        proof.responses.length = idxs.length + 1 →
        ∃ b : Bool, verify_commitment_proof h0 hs commitment proof idxs nonce = .ok b) ∧
      (∀ (h0 : Point) (hs : List Point) (commitment : Commitment) (c rb : Scalar)
        (rest : List Scalar) (idxs : List ℕ) (nonce : Nonce),
        rest.length = idxs.length →
        c ≠ challengeHash h0 hs commitment
          (rb * h0 + (List.zipWith (fun r i => r * hs.getD i 0) rest idxs).sum -
            c * commitment) nonce →
        verify_commitment_proof h0 hs commitment ⟨c, rb :: rest⟩ idxs nonce = .ok false) ∧
      (∀ (h0 : Point) (hs : List Point) (commitment : Commitment)
        (proof : CommitmentProof) (idxs : List ℕ) (nonce : Nonce),
        proof.responses.length ≠ idxs.length + 1 →
        verify_commitment_proof h0 hs commitment proof idxs nonce = .error .InvalidInput) ∧
      ∀ (pk : Scalar) (h0 : Point) (hs : List Point) (l : List ℕ)
        (msgs : List Message) (err : Error), decodeSignature l = .error err →
        verify_signature_bytes pk h0 hs l msgs = .error err := by
  refine ⟨fun pk h0 hs sig msgs hlen => ⟨_, verify_eq_ok hlen⟩,
    fun pk h0 hs sig msgs hlen hne => ?_,
    fun pk h0 hs sig msgs hlen => ?_,
    fun h0 hs commitment proof idxs nonce hlen => ?_,
    fun h0 hs commitment c rb rest idxs nonce hlen hne => ?_,
    fun h0 hs commitment proof idxs nonce hlen => ?_,
    fun pk h0 hs l msgs err hdec => ?_⟩
  · rw [verify_eq_ok hlen, decide_eq_false hne]
  · unfold verify
    rw [if_pos hlen]
  · obtain ⟨c, resps⟩ := proof
    match resps, hlen with
    | rb :: rest, hlen =>
      simp only [verify_commitment_proof]
      rw [if_neg]
      · exact ⟨_, rfl⟩
      · simp only [List.length_cons] at hlen
        omega
  · simp only [verify_commitment_proof]
    rw [if_neg (not_not_intro hlen), decide_eq_false hne]
  · obtain ⟨c, resps⟩ := proof
    match resps with
    | [] => rfl
    | rb :: rest =>
      simp only [verify_commitment_proof]
      rw [if_pos]
      simp only [List.length_cons] at hlen
      omega
  · simp only [verify_signature_bytes, bind, Except.bind, hdec]

/-- Witness for claim C6: a signature tuple that fails the pairing
relation verifies to `ok false` on a well-formed vector, and a
length-mismatched vector is an invalid-input error. -/
theorem claim_C6_witness :
    (([3, 7] : List Message).length = ([2, 5] : List Point).length ∧
        verify 2 1 [2, 5] ⟨0, 1, 1⟩ [3, 7] = .ok false) ∧
      (([3] : List Message).length ≠ ([2, 5] : List Point).length ∧
        verify 2 1 [2, 5] ⟨0, 1, 1⟩ [3] = .error .InvalidInput) ∧
      ∃ b : Bool, verify_commitment_proof 1 [2, 5] 4 ⟨3, [1, 2]⟩ [0] 6 = .ok b :=
  ⟨⟨by decide, claim_C6.2.1 2 1 [2, 5] ⟨0, 1, 1⟩ [3, 7] (by decide) (by decide)⟩,
    ⟨by decide, claim_C6.2.2.1 2 1 [2, 5] ⟨0, 1, 1⟩ [3] (by decide)⟩,
    claim_C6.2.2.2.1 1 [2, 5] 4 ⟨3, [1, 2]⟩ [0] 6 (by decide)⟩

theorem pairTermSum_append (hs : List Point) (l₁ l₂ : List (ℕ × Message)) :
    pairTermSum hs (l₁ ++ l₂) = pairTermSum hs l₁ + pairTermSum hs l₂ := by
  simp [pairTermSum]

theorem pairTermSum_perm (hs : List Point) {l₁ l₂ : List (ℕ × Message)}
    (h : l₁.Perm l₂) : pairTermSum hs l₁ = pairTermSum hs l₂ :=
  (h.map _).sum_eq

theorem pairTermSum_enumFrom (hs : List Point) :
    ∀ (msgs : List Message) (k : ℕ), k + msgs.length ≤ hs.length →
      pairTermSum hs (List.enumFrom k msgs) =
        (List.zipWith (fun m h => m * h) msgs (hs.drop k)).sum := by
  intro msgs
  induction msgs with
  | nil => intro k hk; simp [pairTermSum]
  | cons m t ih =>
    intro k hk
    have hklt : k < hs.length := by
      simp only [List.length_cons] at hk
      omega
    have hdrop : hs.drop k = hs[k] :: hs.drop (k + 1) := List.drop_eq_getElem_cons hklt
    rw [show List.enumFrom k (m :: t) = (k, m) :: List.enumFrom (k + 1) t from rfl,
      pairTermSum_cons, hdrop, List.zipWith_cons_cons, List.sum_cons,
      ih (k + 1) (by simp only [List.length_cons] at hk; omega),
      List.getD_eq_getElem hs 0 hklt]

theorem pairTermSum_enum {hs : List Point} {msgs : List Message}
    (h : msgs.length ≤ hs.length) :
    pairTermSum hs msgs.enum = weightedSum hs msgs := by
  have := pairTermSum_enumFrom hs msgs 0 (by simpa using h)
  simpa [weightedSum] using this

theorem sign_eq_ok {sk e s : Scalar} {h0 : Point} {hs : List Point}
    {msgs : List Message} (hlen : msgs.length = hs.length) (he : sk + e ≠ 0) :
    sign sk e s h0 hs msgs =
      .ok ⟨(1 + s * h0 + weightedSum hs msgs) * (sk + e)⁻¹, e, s⟩ := by
  unfold sign
  rw [if_neg (not_not_intro hlen), if_neg he]

theorem cancel_mul_inv {x d : Scalar} (hd : d ≠ 0) : x * d⁻¹ * d = x := by
  rw [mul_assoc, ZMod.inv_mul_of_unit d (isUnit_iff_ne_zero.mpr hd), mul_one]

theorem verify_sign_true {sk e s : Scalar} {h0 : Point} {hs : List Point}
    {msgs : List Message} (hlen : msgs.length = hs.length) (he : sk + e ≠ 0) :
    verify sk h0 hs ⟨(1 + s * h0 + weightedSum hs msgs) * (sk + e)⁻¹, e, s⟩ msgs =
      .ok true := by
  rw [verify_eq_ok hlen]
  congr 1
  rw [decide_eq_true_eq]
  exact cancel_mul_inv he

/-- Claim C5: blind issuance composes additively — when the committed
messages and the issuer's cleartext messages together cover the full
message vector, signing the issuer part against the holder's commitment
and then folding the holder's blinding into `s` yields exactly the
signature that direct signing of the full vector produces, and that
signature verifies against the full vector. -/
theorem claim_C5 (sk e s b : Scalar) (h0 : Point) (hs : List Point)
    (msgs : List Message) (cm issuer : List (ℕ × Message))
    (hperm : (cm ++ issuer).Perm msgs.enum)
    (hlen : msgs.length = hs.length)
    (hsu : indicesSortedUnique cm) (hrange : indicesInRange cm hs.length)
    (he : sk + e ≠ 0) :
    ∃ (C : Commitment) (bsig dsig : Signature),
      create_commitment h0 hs cm b = .ok C ∧
        sign_blind sk e s h0 hs issuer C = .ok bsig ∧
        sign sk e (s + b) h0 hs msgs = .ok dsig ∧
        bsig.unblind b = dsig ∧
        verify sk h0 hs dsig msgs = .ok true := by
  have hsum : pairTermSum hs cm + pairTermSum hs issuer = weightedSum hs msgs := by
    rw [← pairTermSum_append, pairTermSum_perm hs hperm, pairTermSum_enum hlen.le]
  refine ⟨b * h0 + pairTermSum hs cm,
    ⟨(1 + s * h0 + (b * h0 + pairTermSum hs cm) + pairTermSum hs issuer) * (sk + e)⁻¹,
      e, s⟩,
    ⟨(1 + (s + b) * h0 + weightedSum hs msgs) * (sk + e)⁻¹, e, s + b⟩,
    create_commitment_ok h0 hs cm b hsu hrange, ?_, sign_eq_ok hlen he, ?_,
    verify_sign_true hlen he⟩
  · unfold sign_blind
    rw [if_neg he]
  · unfold Signature.unblind
    congr 1
    rw [← hsum]
    ring

/-- Witness for claim C5 at the concrete scenario: messages `[5, 7, 11]`,
the holder commits to indices 0 and 2 with blinding 3, the issuer
contributes index 1. -/
theorem claim_C5_witness :
    (([((0 : ℕ), (5 : Message)), (2, 11)] ++ [(1, 7)]).Perm
        ([(5 : Message), 7, 11].enum) ∧
        ([(5 : Message), 7, 11]).length = ([2, 3, 4] : List Point).length ∧
        indicesSortedUnique [((0 : ℕ), (5 : Message)), (2, 11)] ∧
        indicesInRange [((0 : ℕ), (5 : Message)), (2, 11)]
          ([2, 3, 4] : List Point).length ∧
        (2 : Scalar) + 4 ≠ 0) ∧
      ∃ (C : Commitment) (bsig dsig : Signature),
        create_commitment 5 [2, 3, 4] [((0 : ℕ), (5 : Message)), (2, 11)] 3 = .ok C ∧
          sign_blind 2 4 6 5 [2, 3, 4] [(1, 7)] C = .ok bsig ∧
          sign 2 4 (6 + 3) 5 [2, 3, 4] [(5 : Message), 7, 11] = .ok dsig ∧
          bsig.unblind 3 = dsig ∧
          verify 2 5 [2, 3, 4] dsig [(5 : Message), 7, 11] = .ok true :=
  ⟨⟨by decide, by decide, by decide, by decide, by decide⟩,
    claim_C5 2 4 6 3 5 [2, 3, 4] [5, 7, 11] [(0, 5), (2, 11)] [(1, 7)]
      (by decide) (by decide) (by decide) (by decide) (by decide)⟩

theorem weightedSum_set (v : Message) :
    ∀ (msgs : List Message) (hs : List Point) (i : ℕ), i < msgs.length → i < hs.length →
      weightedSum hs (msgs.set i v) =
        weightedSum hs msgs + (v - msgs.getD i 0) * hs.getD i 0 := by
  intro msgs
  induction msgs with
  | nil =>
    intro hs i h1 h2
    simp at h1
  | cons m t ih =>
    intro hs i h1 h2
    cases hs with
    | nil => simp at h2
    | cons h hs' =>
      cases i with
      | zero =>
        simp only [List.set_cons_zero, weightedSum, List.zipWith_cons_cons,
          List.sum_cons, List.getD_cons_zero]
        ring
      | succ i =>
        have h1' : i < t.length := by simpa using h1
        have h2' : i < hs'.length := by simpa using h2
        simp only [List.set_cons_succ, weightedSum, List.zipWith_cons_cons,
          List.sum_cons, List.getD_cons_succ]
        rw [show (List.zipWith (fun m h => m * h) (t.set i v) hs').sum =
            weightedSum hs' (t.set i v) from rfl,
          ih hs' i h1' h2']
        unfold weightedSum
        ring

theorem getD_set_ne {l : List Message} {i j : ℕ} (hij : i ≠ j) (v : Message) :
    (l.set i v).getD j 0 = l.getD j 0 := by
  simp [List.getD_eq_getElem?_getD, List.getElem?_set_ne hij]

theorem points_getD_ne_zero {dom n : ℕ} {g : VecGenerators}
    (hg : VecGenerators.new dom n = .ok g) {i : ℕ} (hi : i < n) :
    g.points.getD i 0 ≠ 0 := by
  have hlen : g.points.length = n := VecGenerators_new_length hg
  have hi' : i < g.points.length := by omega
  rw [List.getD_eq_getElem _ 0 hi']
  exact buildPoints_nonzero (VecGenerators_new_ok hg).1 (List.getElem_mem hi')

theorem ok_decide_iff {P : Prop} [Decidable P] :
    (Except.ok (decide P) : Except Error Bool) = .ok true ↔ P := by
  constructor
  · intro h
    exact of_decide_eq_true (Except.ok.inj h)
  · intro h
    rw [decide_eq_true h]

/-- Claim C1 (amended): over honestly derived generators, signing then
verifying the same message vector succeeds, and replacing any single
message by a different value makes verification return false; for
reorderings the exact characterization holds: a permutation of the
message vector verifies true precisely when it leaves the
generator-weighted sum `Σ mᵢ·hᵢ` unchanged, and verifies false whenever
it changes that sum.  (So a reordering can verify true: one that
reproduces the vector, and more generally any sum-preserving permutation
— the counterexample exhibits both kinds.) -/
theorem claim_C1 {dom n : ℕ} {g : VecGenerators}
    (hg : VecGenerators.new dom n = .ok g) (sk e s : Scalar)
    (msgs : List Message) (hlen : msgs.length = n) (he : sk + e ≠ 0) :
    ∃ sig : Signature,
      sign sk e s g.h0 g.points msgs = .ok sig ∧
        verify sk g.h0 g.points sig msgs = .ok true ∧
        (∀ (i : ℕ) (v : Message), i < n → v ≠ msgs.getD i 0 →
          verify sk g.h0 g.points sig (msgs.set i v) = .ok false) ∧
        ∀ msgs' : List Message, msgs'.Perm msgs →
          (verify sk g.h0 g.points sig msgs' = .ok true ↔
            weightedSum g.points msgs' = weightedSum g.points msgs) ∧
          (weightedSum g.points msgs' ≠ weightedSum g.points msgs →
            verify sk g.h0 g.points sig msgs' = .ok false) := by
  have hplen : g.points.length = n := VecGenerators_new_length hg
  have hlen' : msgs.length = g.points.length := by omega
  have hA : ((1 + s * g.h0 + weightedSum g.points msgs) * (sk + e)⁻¹) * (sk + e) =
      1 + s * g.h0 + weightedSum g.points msgs := cancel_mul_inv he
  refine ⟨⟨(1 + s * g.h0 + weightedSum g.points msgs) * (sk + e)⁻¹, e, s⟩,
    sign_eq_ok hlen' he, verify_sign_true hlen' he, ?_, ?_⟩
  · intro i v hi hv
    have him : i < msgs.length := by omega
    have hip : i < g.points.length := by omega
    have hsetlen : (msgs.set i v).length = g.points.length := by
      rw [List.length_set]; exact hlen'
    rw [verify_eq_ok hsetlen, decide_eq_false]
    intro hcon
    dsimp only at hcon
    rw [hA, weightedSum_set v msgs g.points i him hip] at hcon
    exact mul_ne_zero (sub_ne_zero_of_ne hv) (points_getD_ne_zero hg hi)
      (by linear_combination -hcon)
  · intro msgs' hperm
    have hlen'' : msgs'.length = g.points.length := by
      rw [hperm.length_eq]; exact hlen'
    constructor
    · rw [verify_eq_ok hlen'', ok_decide_iff]
      dsimp only
      rw [hA]
      constructor
      · intro hcon
        linear_combination -hcon
      · intro hcon
        linear_combination -hcon
    · intro hne
      rw [verify_eq_ok hlen'', decide_eq_false]
      intro hcon
      dsimp only at hcon
      rw [hA] at hcon
      exact hne (by linear_combination -hcon)

/-- Witness for claim C1 at domain 0, messages `[5, 7, 11]`. -/
theorem claim_C1_witness :
    (VecGenerators.new 0 3 = .ok ⟨0, [2, 5, 10], 1⟩ ∧
        ([(5 : Message), 7, 11]).length = 3 ∧ (2 : Scalar) + 4 ≠ 0) ∧
      ∃ sig : Signature,
        sign 2 4 6 (VecGenerators.mk 0 [2, 5, 10] 1).h0
            (VecGenerators.mk 0 [2, 5, 10] 1).points [(5 : Message), 7, 11] = .ok sig ∧
          verify 2 (VecGenerators.mk 0 [2, 5, 10] 1).h0
              (VecGenerators.mk 0 [2, 5, 10] 1).points sig [(5 : Message), 7, 11] =
            .ok true ∧
          (∀ (i : ℕ) (v : Message), i < 3 → v ≠ ([(5 : Message), 7, 11]).getD i 0 →
            verify 2 (VecGenerators.mk 0 [2, 5, 10] 1).h0
                (VecGenerators.mk 0 [2, 5, 10] 1).points sig
                (([(5 : Message), 7, 11]).set i v) = .ok false) ∧
          ∀ msgs' : List Message, msgs'.Perm [(5 : Message), 7, 11] →
            (verify 2 (VecGenerators.mk 0 [2, 5, 10] 1).h0
                  (VecGenerators.mk 0 [2, 5, 10] 1).points sig msgs' = .ok true ↔
                weightedSum (VecGenerators.mk 0 [2, 5, 10] 1).points msgs' =
                  weightedSum (VecGenerators.mk 0 [2, 5, 10] 1).points
                    [(5 : Message), 7, 11]) ∧
              (weightedSum (VecGenerators.mk 0 [2, 5, 10] 1).points msgs' ≠
                  weightedSum (VecGenerators.mk 0 [2, 5, 10] 1).points
                    [(5 : Message), 7, 11] →
                verify 2 (VecGenerators.mk 0 [2, 5, 10] 1).h0
                    (VecGenerators.mk 0 [2, 5, 10] 1).points sig msgs' = .ok false) :=
  ⟨⟨by decide, by decide, by decide⟩,
    @claim_C1 0 3 ⟨0, [2, 5, 10], 1⟩ (by decide) 2 4 6 [5, 7, 11] (by decide) (by decide)⟩

/-- Counterexample to claim C1 as stated: two reorderings that verify
true.  First, over the message vector `[5, 5]` the reordering that
exchanges positions 0 and 1 reproduces the vector, so verification of
the reordered vector returns true, not false.  Second, even a reordering
that changes the vector can verify true: over the derived generators
`[2, 5, 10]` of domain 0 — pairwise distinct points — the rotation
`[2, 3, 9] → [3, 9, 2]` of pairwise distinct messages preserves the
generator-weighted sum, and verification of the reordered vector again
returns true. -/
theorem claim_C1_counterexample :
    (listSwap [5, 5] 0 1 = [(5 : Message), 5] ∧
        (do
          let g ← VecGenerators.new 0 2
          let sig ← sign 2 3 4 g.h0 g.points [(5 : Message), 5]
          verify 2 g.h0 g.points sig (listSwap [5, 5] 0 1)) = .ok true) ∧
      ([(2 : Message), 3, 9].rotate 1 = [3, 9, 2] ∧
        [(3 : Message), 9, 2] ≠ [2, 3, 9] ∧
        (do
          let g ← VecGenerators.new 0 3
          let sig ← sign 2 4 6 g.h0 g.points [(2 : Message), 3, 9]
          verify 2 g.h0 g.points sig ([(2 : Message), 3, 9].rotate 1)) = .ok true) := by
  constructor
  · have hswap : listSwap [5, 5] 0 1 = [(5 : Message), 5] := by decide
    refine ⟨hswap, ?_⟩
    have hnew : VecGenerators.new 0 2 = .ok ⟨0, [2, 5], 1⟩ := by decide
    rw [hnew]
    simp only [bind, Except.bind]
    rw [sign_eq_ok (by decide) (by decide), hswap]
    exact verify_sign_true (by decide) (by decide)
  · have hrot : [(2 : Message), 3, 9].rotate 1 = [3, 9, 2] := by decide
    refine ⟨hrot, by decide, ?_⟩
    have hnew : VecGenerators.new 0 3 = .ok ⟨0, [2, 5, 10], 1⟩ := by decide
    rw [hnew]
    simp only [bind, Except.bind]
    rw [sign_eq_ok (by decide) (by decide), hrot]
    dsimp only
    rw [verify_eq_ok (by decide)]
    dsimp only
    rw [cancel_mul_inv (by decide)]
    decide

end AskarBBS
